import Mathlib

/-!
Verification of the jsonpatcher event codec and reducer
(`src/jsonpatcher/jsonpatcher.go`).

The development shallowly embeds the Go source:

* JSON byte payloads are modelled by their parsed JSON content (`JSON`).
  Go unmarshals JSON objects into `map[string]interface{}`, an unordered
  map whose canonical serialization sorts keys; we therefore represent
  objects as key-sorted association lists (predicate `JSON.wf`), which
  makes structural equality field-order independent exactly as Go map
  equality is.
* The merge-patch engine (`jsonpatch.CreateMergePatch` /
  `jsonpatch.MergePatch` from the evanphx/json-patch dependency) is not
  part of this repository's sources; it is modelled from the spec
  (section 4.1 and the glossary: RFC 7396 merge-patch semantics) as
  `JSON.diff` and `JSON.apply`.
* The CBOR envelope codec (`cbornode.WrapObject` / `cbornode.DecodeInto`
  from go-ipld-cbor) is likewise external; it is modelled from the spec
  (section 4.4: decoding preserves every Event field exactly) by a node
  type that carries the encoded record.
* The transactional datastore is an external collaborator (spec section
  6); a transaction is modelled as a snapshot copy of the keyed store,
  committed on success and discarded on failure.
* Go `panic` is modelled as a distinguished result constructor, so that
  termination behaviour is observable.
-/

namespace jsonpatcher

/-- JSON values. Object payloads are association lists of fields; the
canonical (Go-map-like) representation keeps them key-sorted, see
`JSON.wf`. -/
inductive JSON where
  | null
  | bool (b : Bool)
  | num (n : Int)
  | str (s : String)
  | arr (xs : List JSON)
  | obj (fs : List (String × JSON))

/-- Tests whether a JSON value is the null literal. -/
def JSON.isNull : JSON → Bool
  | .null => true
  | _ => false

/-- Tests whether a JSON value is an object. -/
def JSON.isObj : JSON → Bool
  | .obj _ => true
  | _ => false

/-- Fields of an object, and the empty field list for any other value. -/
def JSON.objFields : JSON → List (String × JSON)
  | .obj fs => fs
  | _ => []

/-- Byte-wise lexicographic order on character lists (the order in which
Go compares string keys when serializing a map). -/
def charsLt : List Char → List Char → Bool
  | [], [] => false
  | [], _ :: _ => true
  | _ :: _, [] => false
  | a :: as, b :: bs =>
    if a.toNat < b.toNat then true
    else if b.toNat < a.toNat then false
    else charsLt as bs

/-- Lexicographic order on strings, via their character lists. -/
def strLt (a b : String) : Bool := charsLt a.data b.data

mutual

/-- Structural equality test on JSON values (the role played in Go by
comparing unmarshalled values, e.g. matchesValue/matchesArray in the
merge-patch engine). -/
def JSON.beq : JSON → JSON → Bool
  | .null, .null => true
  | .bool a, .bool b => a == b
  | .num a, .num b => a == b
  | .str a, .str b => a == b
  | .arr xs, .arr ys => beqList xs ys
  | .obj fs, .obj gs => beqFields fs gs
  | _, _ => false
termination_by a _ => sizeOf a

/-- Pointwise equality test on JSON value lists. -/
def beqList : List JSON → List JSON → Bool
  | [], [] => true
  | x :: xs, y :: ys => JSON.beq x y && beqList xs ys
  | _, _ => false
termination_by a _ => sizeOf a

/-- Pointwise equality test on field lists. -/
def beqFields : List (String × JSON) → List (String × JSON) → Bool
  | [], [] => true
  | (k, v) :: fs, (l, w) :: gs => k == l && JSON.beq v w && beqFields fs gs
  | _, _ => false
termination_by a _ => sizeOf a

end

mutual

/-- Modelled from the spec: merge-patch application (RFC 7396
`MergePatch(Target, Patch)`, spec section 4.1 `Apply`), standing in for
`jsonpatch.MergePatch` of the evanphx/json-patch dependency, which is
not among this repository's sources. A non-object patch replaces the
target wholly; an object patch is applied field by field, null patch
fields deleting the target field. -/
def JSON.apply : JSON → JSON → JSON
  | base, .obj gs => .obj (applyFields base.objFields gs)
  | _, p => p
termination_by _ p => (sizeOf p, 0)

/-- Field-level merge of a (key-sorted) target field list with a
(key-sorted) patch field list, per RFC 7396: null patch values delete,
other patch values are merged recursively into the target value (an
absent or non-object target field behaving as an empty object when the
patch value is itself an object). -/
def applyFields : List (String × JSON) → List (String × JSON) → List (String × JSON)
  | fs, [] => fs
  | [], (k, v) :: gs =>
    if v.isNull then applyFields [] gs
    else (k, JSON.apply .null v) :: applyFields [] gs
  | (k₁, v₁) :: fs, (k₂, v₂) :: gs =>
    if strLt k₁ k₂ then (k₁, v₁) :: applyFields fs ((k₂, v₂) :: gs)
    else if strLt k₂ k₁ then
      (if v₂.isNull then applyFields ((k₁, v₁) :: fs) gs
       else (k₂, JSON.apply .null v₂) :: applyFields ((k₁, v₁) :: fs) gs)
    else
      (if v₂.isNull then applyFields fs gs
       else (k₁, JSON.apply v₁ v₂) :: applyFields fs gs)
termination_by fs gs => (sizeOf gs, sizeOf fs)

end

/-- Field-level diff of two (key-sorted) field lists: keys only in the
second list are additions, keys only in the first are deletions (mapped
to null), keys in both are compared — object values recursively (an
empty sub-diff is omitted), any other values by whole-value equality
with whole-value replacement. -/
def diffFields : List (String × JSON) → List (String × JSON) → List (String × JSON)
  | [], gs => gs
  | fs, [] => fs.map (fun p => (p.1, JSON.null))
  | (k₁, v₁) :: fs, (k₂, v₂) :: gs =>
    if strLt k₁ k₂ then (k₁, JSON.null) :: diffFields fs ((k₂, v₂) :: gs)
    else if strLt k₂ k₁ then (k₂, v₂) :: diffFields ((k₁, v₁) :: fs) gs
    else
      match v₁, v₂ with
      | .obj a, .obj b =>
        let sub := diffFields a b
        if sub.isEmpty then diffFields fs gs
        else (k₁, JSON.obj sub) :: diffFields fs gs
      | w₁, w₂ =>
        if JSON.beq w₁ w₂ then diffFields fs gs else (k₂, w₂) :: diffFields fs gs
termination_by fs gs => (sizeOf gs, sizeOf fs)

/-- Modelled from the spec: merge-patch computation (spec section 4.1
`Diff`), standing in for `jsonpatch.CreateMergePatch` of the
evanphx/json-patch dependency, which is not among this repository's
sources. If previous and current are not both objects the patch is the
current value verbatim; otherwise it is the field-level diff. -/
def JSON.diff : JSON → JSON → JSON
  | .obj fs, .obj gs => .obj (diffFields fs gs)
  | _, c => c

/-- Dependency call `jsonpatch.MergePatch(value, patch)` used by the
Reducer's Save branch (jsonpatcher.go:130). -/
def MergePatch (doc patch : JSON) : JSON := JSON.apply doc patch

/-- Dependency call `jsonpatch.CreateMergePatch(prevBytes, currBytes)`
used by the Save translator (jsonpatcher.go:213). -/
def CreateMergePatch (prev curr : JSON) : JSON := JSON.diff prev curr

/-- Strictly increasing key order of an association list. -/
def sortedKeys : List (String × JSON) → Bool
  | [] => true
  | [_] => true
  | (k₁, _) :: (k₂, v₂) :: rest => strLt k₁ k₂ && sortedKeys ((k₂, v₂) :: rest)

/-- All keys of the list are greater than the given key. -/
def allKeysGt (k : String) (l : List (String × JSON)) : Bool :=
  l.all (fun p => strLt k p.1)

mutual

/-- Canonical representation predicate: every object's field list is
key-sorted, recursively (the invariant enjoyed by Go's map-backed JSON
values under sorted serialization). -/
def JSON.wf : JSON → Bool
  | .obj fs => sortedKeys fs && wfFields fs
  | .arr xs => wfArr xs
  | _ => true
termination_by v => sizeOf v

/-- Canonical representation of every value in a field list. -/
def wfFields : List (String × JSON) → Bool
  | [] => true
  | (_, v) :: fs => JSON.wf v && wfFields fs
termination_by l => sizeOf l

/-- Canonical representation of every value in a value list. -/
def wfArr : List JSON → Bool
  | [] => true
  | v :: xs => JSON.wf v && wfArr xs
termination_by l => sizeOf l

end

mutual

/-- No object field of the value (recursively through objects) is bound
to the null literal. RFC 7396 reserves null for field deletion, so such
values are exactly the ones merge patches can reproduce. -/
def JSON.noNull : JSON → Bool
  | .obj fs => noNullFields fs
  | _ => true
termination_by v => sizeOf v

/-- No field of the list is bound to null, recursively. -/
def noNullFields : List (String × JSON) → Bool
  | [] => true
  | (_, v) :: fs => !v.isNull && JSON.noNull v && noNullFields fs
termination_by l => sizeOf l

end

/-- Store keys: path segments, as built by `ds.Key.ChildString`. -/
abbrev Key := List String

/-- Keyed store contents: an association list from keys to stored JSON
bodies (store values are serialized entity bodies, modelled by their
JSON content). -/
abbrev Store := List (Key × JSON)

/-- Transaction membership test, `txn.Has(key)` (spec section 6). -/
def hasKey (st : Store) (k : Key) : Bool :=
  st.any (fun p => p.1 == k)

/-- Transaction read, `txn.Get(key)`; `none` models `ds.ErrNotFound`. -/
def getKey (st : Store) (k : Key) : Option JSON :=
  (st.find? (fun p => p.1 == k)).map (fun p => p.2)

/-- Transaction write, `txn.Put(key, value)`: replaces the binding in
place or appends a new one. -/
def putKey : Store → Key → JSON → Store
  | [], k, v => [(k, v)]
  | (k₀, v₀) :: rest, k, v =>
    if k₀ == k then (k, v) :: rest else (k₀, v₀) :: putKey rest k v

/-- Transaction delete, `txn.Delete(key)`: removes the binding if
present, and is a no-op otherwise. -/
def deleteKey (st : Store) (k : Key) : Store :=
  st.filter (fun p => !(p.1 == k))

/-- Constants of Go type `operationType` (jsonpatcher.go:20-26, an
`iota` enumeration over `int`; values outside the three constants are
representable, which is what the Reducer's default branch guards). -/
def create : Nat := 0

/-- Constant `save` of `operationType`. -/
def save : Nat := 1

/-- Constant `delete` of `operationType`. -/
def delete : Nat := 2

/-- Persisted operation (jsonpatcher.go:35-39). `JSONPatch` holds the
payload bytes, modelled by their JSON content (`JSON.null` models the
nil payload of delete operations). The Go field `Type` is spelled
`type` here because `Type` is reserved in Lean. -/
structure operation where
  type : Nat
  EntityID : String
  JSONPatch : JSON

/-- Persisted event (jsonpatcher.go:232-237). `Timestamp` is the
nanosecond instant `time.Time.UnixNano()` would report, as an integer. -/
structure patchEvent where
  Timestamp : Int
  ID : String
  ModelName : String
  Patch : operation

/-- Accessor `patchEvent.EntityID()` (jsonpatcher.go:247-249). -/
def patchEvent.EntityID (je : patchEvent) : String := je.ID

/-- Accessor `patchEvent.Model()` (jsonpatcher.go:251-253). -/
def patchEvent.Model (je : patchEvent) : String := je.ModelName

/-- Big-endian base-256 digits of a natural number below `256 ^ n`,
padded to exactly `n` digits. -/
def beBytes : Nat → Nat → List Nat
  | 0, _ => []
  | n + 1, v => (v / 256 ^ n) % 256 :: beBytes n (v % 256 ^ n)

/-- Value denoted by a big-endian base-256 digit list. -/
def beNat : List Nat → Nat
  | [] => 0
  | b :: bs => b * 256 ^ bs.length + beNat bs

/-- Lexicographic order (non-strict) on byte lists. -/
def lexLe : List Nat → List Nat → Bool
  | [], _ => true
  | _ :: _, [] => false
  | a :: as, b :: bs =>
    if a < b then true else if b < a then false else lexLe as bs

/-- Method `patchEvent.Time()` (jsonpatcher.go:239-245): the 8 bytes
`binary.Write(buf, binary.BigEndian, je.Timestamp.UnixNano())`
produces, i.e. the big-endian bytes of the timestamp's two's-complement
64-bit image. -/
def patchEvent.Time (je : patchEvent) : List Nat :=
  beBytes 8 ((je.Timestamp % (2 : Int) ^ 64).toNat)

/-- Constants of Go type `core.ActionType`. Modelled from the spec: the
go-textile-core store package is not among this repository's sources;
spec section 3 fixes the three recognized kinds Create, Save, Delete,
other values being contract violations. -/
def ActionCreate : Nat := 0

/-- Recognized action kind Save. -/
def ActionSave : Nat := 1

/-- Recognized action kind Delete. -/
def ActionDelete : Nat := 2

/-- Per-event outcome record `core.ReduceAction` (spec section 6: Kind,
ModelName, EntityID). The Go field `Type` is spelled `type` here. -/
structure ReduceAction where
  type : Nat
  Model : String
  EntityID : String

/-- Errors the Reducer can return (jsonpatcher.go:28-33). -/
inductive ReduceError where
  | errSavingNonExistentInstance
  | errCantCreateExistingInstance
  | errUnknownOperation

/-- Body of the Reducer's per-event switch (jsonpatcher.go:107-147):
computes the store key `baseKey/Model/EntityID` and dispatches on the
operation type, returning either the updated transaction state together
with the event's outcome record, or the error that aborts the call. -/
def reduceStep (baseKey : Key) (e : patchEvent) (txn : Store) :
    Except ReduceError (Store × ReduceAction) :=
  let key := baseKey ++ [e.ModelName, e.ID]
  if e.Patch.type = create then
    if hasKey txn key then .error .errCantCreateExistingInstance
    else .ok (putKey txn key e.Patch.JSONPatch,
              ⟨ActionCreate, e.ModelName, e.ID⟩)
  else if e.Patch.type = save then
    match getKey txn key with
    | none => .error .errSavingNonExistentInstance
    | some value =>
      .ok (putKey txn key (MergePatch value e.Patch.JSONPatch),
           ⟨ActionSave, e.ModelName, e.ID⟩)
  else if e.Patch.type = delete then
    .ok (deleteKey txn key, ⟨ActionDelete, e.ModelName, e.ID⟩)
  else .error .errUnknownOperation

/-- Event loop of `jsonPatcher.Reduce` (jsonpatcher.go:101-148): events
are applied strictly in input order against the transaction state; the
first failing event aborts the whole loop, otherwise the outcome
records accumulate in input order. -/
def reduceLoop (baseKey : Key) : List patchEvent → Store →
    Except ReduceError (Store × List ReduceAction)
  | [], txn => .ok (txn, [])
  | e :: es, txn =>
    match reduceStep baseKey e txn with
    | .error er => .error er
    | .ok (txn₁, act) =>
      match reduceLoop baseKey es txn₁ with
      | .error er => .error er
      | .ok (final, acts) => .ok (final, act :: acts)

/-- Result of one `Reduce` call: the returned outcome list or error,
together with the datastore contents after the call (the transaction is
committed on success and discarded on failure, jsonpatcher.go:95-99 and
149-153, per the collaborator contract of spec section 6). -/
structure ReduceResult where
  outcomes : Except ReduceError (List ReduceAction)
  datastore : Store

/-- Method `jsonPatcher.Reduce` (jsonpatcher.go:94-154): opens a
transaction on the datastore, replays all events through `reduceLoop`,
commits on success and discards on failure, so a failed call leaves the
datastore exactly as it was. -/
def Reduce (events : List patchEvent) (datastore : Store) (baseKey : Key) :
    ReduceResult :=
  match reduceLoop baseKey events datastore with
  | .error er => ⟨.error er, datastore⟩
  | .ok (txn, actions) => ⟨.ok actions, txn⟩

/-- Go value carried in an Action's `Previous`/`Current` field
(`interface{}` in the source). `structured j` is a value whose JSON
serialization is `j`; `badValue` is a value `json.Marshal` rejects;
`strPtr j` is a `*string` holding JSON text for `j` (the jsonMode
convention); `rawBytes j` is a `[]byte` holding JSON text for `j` (the
jsonMode convention for a Save action's previous state). -/
inductive ActValue where
  | structured (j : JSON)
  | badValue (tag : Nat)
  | strPtr (j : JSON)
  | rawBytes (j : JSON)

/-- Errors the translators can return; `serializationError` models a
`json.Marshal` failure and carries the offending value's tag. -/
inductive CodecError where
  | serializationError (tag : Nat)

/-- Result of a computation that can also terminate the process:
`panicked` models a Go `panic`, distinct from any returned error. -/
inductive TResult (α : Type) where
  | ok (a : α)
  | err (e : CodecError)
  | panicked (msg : String)

/-- Model of `json.Marshal` on an action value: structured values
serialize to their JSON content, bad values fail. String pointers and
byte slices marshal successfully to a JSON string (its exact text is
irrelevant to every property below and elided as the null string
value). -/
def marshal : ActValue → Except CodecError JSON
  | .structured j => .ok j
  | .badValue tag => .error (.serializationError tag)
  | .strPtr _ => .ok (.str ( ""))
  | .rawBytes _ => .ok (.str ( ""))

/-- Message of the interface-conversion panic a failed Go type
assertion raises. -/
def castPanicMsg : String := "interface conversion"

/-- Message of the explicit panic in `Create`'s default branch
(jsonpatcher.go:73, spelled as in the source). -/
def unknownActionMsg : String := "unkown action type"

/-- Translator `createEvent` (jsonpatcher.go:175-193): in jsonMode the
current value must be a `*string`, whose bytes become the payload (a
failed assertion panics); otherwise the value is marshalled, a failure
becoming the returned error. -/
def createEvent (id : String) (v : ActValue) (jsonMode : Bool) :
    TResult operation :=
  if jsonMode then
    match v with
    | .strPtr j => .ok ⟨create, id, j⟩
    | _ => .panicked castPanicMsg
  else
    match marshal v with
    | .ok j => .ok ⟨create, id, j⟩
    | .error e => .err e

/-- Translator `saveEvent` (jsonpatcher.go:195-222): obtains previous
and current bytes (by type assertion in jsonMode, by marshalling
otherwise, previous first) and stores their merge patch as the
payload. -/
def saveEvent (id : String) (prev curr : ActValue) (jsonMode : Bool) :
    TResult operation :=
  if jsonMode then
    match curr with
    | .strPtr cj =>
      match prev with
      | .rawBytes pj => .ok ⟨save, id, CreateMergePatch pj cj⟩
      | _ => .panicked castPanicMsg
    | _ => .panicked castPanicMsg
  else
    match marshal prev with
    | .error e => .err e
    | .ok pj =>
      match marshal curr with
      | .error e => .err e
      | .ok cj => .ok ⟨save, id, CreateMergePatch pj cj⟩

/-- Translator `deleteEvent` (jsonpatcher.go:224-230): never fails; the
payload is nil (modelled as the null value). -/
def deleteEvent (id : String) : TResult operation :=
  .ok ⟨delete, id, .null⟩

/-- Input action `core.Action` (spec section 3). The Go field `Type` is
spelled `type` here. -/
structure Action where
  type : Nat
  EntityID : String
  ModelName : String
  Previous : ActValue
  Current : ActValue

/-- Dispatch switch of `jsonPatcher.Create`'s loop body
(jsonpatcher.go:65-74): translates one action by kind; an unrecognized
kind panics. -/
def translate (jsonMode : Bool) (a : Action) : TResult operation :=
  if a.type = ActionCreate then createEvent a.EntityID a.Current jsonMode
  else if a.type = ActionSave then saveEvent a.EntityID a.Previous a.Current jsonMode
  else if a.type = ActionDelete then deleteEvent a.EntityID
  else .panicked unknownActionMsg

/-- Envelope record `recordEvents` (jsonpatcher.go:156-158). -/
structure recordEvents where
  Patches : List patchEvent

/-- Modelled from the spec: the content-addressed CBOR node
`cbornode.WrapObject` produces and `EventsFromBytes` decodes. The CBOR
codec (go-ipld-cbor) is not among this repository's sources; spec
section 4.4 requires decoding to reconstruct every Event field exactly,
so the node is modelled as carrying the encoded record losslessly. -/
structure EnvelopeNode where
  revents : recordEvents

/-- Modelled from the spec: `cbornode.WrapObject(revents, SHA2_256, -1)`
(jsonpatcher.go:87), a lossless serialization of the record. -/
def WrapObject (r : recordEvents) : EnvelopeNode := ⟨r⟩

/-- Loop of `jsonPatcher.Create` (jsonpatcher.go:59-85): translates the
actions in order, aborting on the first error (or panic); on success
every produced operation is wrapped into a `patchEvent` stamped with
the wall-clock instant of its iteration (`time.Now()`, supplied here by
the `clock` oracle indexed by loop position). -/
def createLoop (jsonMode : Bool) (clock : Nat → Int) :
    List Action → Nat → TResult (List patchEvent)
  | [], _ => .ok []
  | a :: rest, i =>
    match translate jsonMode a with
    | .panicked m => .panicked m
    | .err e => .err e
    | .ok op =>
      match createLoop jsonMode clock rest (i + 1) with
      | .panicked m => .panicked m
      | .err e => .err e
      | .ok ps => .ok (⟨clock i, a.EntityID, a.ModelName, op⟩ :: ps)

/-- Method `jsonPatcher.Create` (jsonpatcher.go:59-92): on success
returns the typed event list together with the serialized envelope node
holding exactly those events; on a translation failure only that error
is returned, and an unrecognized action kind panics. -/
def Create (jsonMode : Bool) (actions : List Action) (clock : Nat → Int) :
    TResult (List patchEvent × EnvelopeNode) :=
  match createLoop jsonMode clock actions 0 with
  | .ok ps => .ok (ps, WrapObject ⟨ps⟩)
  | .err e => .err e
  | .panicked m => .panicked m

/-- Method `jsonPatcher.EventsFromBytes` (jsonpatcher.go:161-173):
decodes the envelope into its `recordEvents` and returns the patches in
order (the decode itself is the modelled lossless CBOR codec). -/
def EventsFromBytes (data : EnvelopeNode) : Except String (List patchEvent) :=
  .ok data.revents.Patches

/-- Concrete event: Create entity A of model user with body x = 1. -/
def evCreateA : patchEvent :=
  ⟨0, "A", "user", ⟨create, "A", .obj [("x", .num 1)]⟩⟩

/-- Concrete event: Save entity B of model user with an empty patch. -/
def evSaveB : patchEvent :=
  ⟨1, "B", "user", ⟨save, "B", .obj []⟩⟩

/-- Concrete event: Delete entity A of model user. -/
def evDeleteA : patchEvent :=
  ⟨2, "A", "user", ⟨delete, "A", .null⟩⟩

/-- Concrete store holding entity A of model user. -/
def stA : Store := [(["user", "A"], .obj [("x", .num 1)])]

/-- Concrete previous object of spec Scenario B: a = 1, b = 2. -/
def sbPrev : JSON := .obj [("a", .num 1), ("b", .num 2)]

/-- Concrete current object of spec Scenario B: a = 1, c = 3. -/
def sbCurr : JSON := .obj [("a", .num 1), ("c", .num 3)]

/-- Concrete action: Delete entity A of model user. -/
def actDeleteA : Action :=
  ⟨ActionDelete, "A", "user", .structured .null, .structured .null⟩

/-- Concrete action: Create entity B of model user from an
unserializable value (tag 7). -/
def actBadB : Action :=
  ⟨ActionCreate, "B", "user", .structured .null, .badValue 7⟩

/-- Concrete action: Create entity C of model user with the empty
object body. -/
def actCreateC : Action :=
  ⟨ActionCreate, "C", "user", .structured .null, .structured (.obj [])⟩

/-- Concrete action with an unrecognized kind (9). -/
def actUnknown : Action :=
  ⟨9, "X", "user", .structured .null, .structured .null⟩

end jsonpatcher

namespace jsonpatcher

/-- Strict order on character lists is irreflexive. -/
theorem charsLt_irrefl : ∀ as, charsLt as as = false
  | [] => rfl
  | a :: as => by simp [charsLt, charsLt_irrefl as]

/-- Strict order on character lists is transitive. -/
theorem charsLt_trans : ∀ as bs cs, charsLt as bs = true → charsLt bs cs = true →
    charsLt as cs = true
  | [], [], _, h₁, _ => by simp [charsLt] at h₁
  | [], _ :: _, [], _, h₂ => by simp [charsLt] at h₂
  | [], _ :: _, _ :: _, _, _ => by simp [charsLt]
  | _ :: _, [], _, h₁, _ => by simp [charsLt] at h₁
  | _ :: _, _ :: _, [], _, h₂ => by simp [charsLt] at h₂
  | a :: as, b :: bs, c :: cs, h₁, h₂ => by
    simp only [charsLt] at h₁ h₂ ⊢
    by_cases hab : a.toNat < b.toNat
    · by_cases hbc : b.toNat < c.toNat
      · simp [Nat.lt_trans hab hbc]
      · rw [if_neg hbc] at h₂
        by_cases hcb : c.toNat < b.toNat
        · rw [if_pos hcb] at h₂; simp at h₂
        · have hh : b.toNat = c.toNat :=
            Nat.le_antisymm (Nat.le_of_not_lt hcb) (Nat.le_of_not_lt hbc)
          simp [hh ▸ hab]
    · rw [if_neg hab] at h₁
      by_cases hba : b.toNat < a.toNat
      · rw [if_pos hba] at h₁; simp at h₁
      · rw [if_neg hba] at h₁
        have heq : a.toNat = b.toNat :=
          Nat.le_antisymm (Nat.le_of_not_lt hba) (Nat.le_of_not_lt hab)
        by_cases hbc : b.toNat < c.toNat
        · simp [heq ▸ hbc]
        · rw [if_neg hbc] at h₂
          by_cases hcb : c.toNat < b.toNat
          · rw [if_pos hcb] at h₂; simp at h₂
          · rw [if_neg hcb] at h₂
            have heq₂ : b.toNat = c.toNat :=
              Nat.le_antisymm (Nat.le_of_not_lt hcb) (Nat.le_of_not_lt hbc)
            have hac : a.toNat = c.toNat := heq.trans heq₂
            rw [if_neg (hac ▸ Nat.lt_irrefl a.toNat), if_neg (hac ▸ Nat.lt_irrefl a.toNat)]
            exact charsLt_trans as bs cs h₁ h₂

/-- Character lists neither of which precedes the other are equal. -/
theorem charsLt_eq_of_not : ∀ as bs, charsLt as bs = false → charsLt bs as = false →
    as = bs
  | [], [], _, _ => rfl
  | [], _ :: _, h₁, _ => by simp [charsLt] at h₁
  | _ :: _, [], _, h₂ => by simp [charsLt] at h₂
  | a :: as, b :: bs, h₁, h₂ => by
    simp only [charsLt] at h₁ h₂
    by_cases hab : a.toNat < b.toNat
    · rw [if_pos hab] at h₁; simp at h₁
    · rw [if_neg hab] at h₁
      by_cases hba : b.toNat < a.toNat
      · rw [if_pos hba] at h₂; simp at h₂
      · rw [if_neg hba] at h₁
        rw [if_neg hba, if_neg hab] at h₂
        have heq : a.toNat = b.toNat :=
          Nat.le_antisymm (Nat.le_of_not_lt hba) (Nat.le_of_not_lt hab)
        have ha : a = b := by
          apply Char.eq_of_val_eq
          apply UInt32.eq_of_toBitVec_eq
          apply BitVec.eq_of_toNat_eq
          exact heq
        rw [ha, charsLt_eq_of_not as bs h₁ h₂]

/-- Strict order on strings is irreflexive. -/
theorem strLt_irrefl (a : String) : strLt a a = false :=
  charsLt_irrefl a.data

/-- Strict order on strings is transitive. -/
theorem strLt_trans {a b c : String} (h₁ : strLt a b = true) (h₂ : strLt b c = true) :
    strLt a c = true :=
  charsLt_trans a.data b.data c.data h₁ h₂

/-- Strings neither of which precedes the other are equal. -/
theorem strLt_eq_of_not {a b : String} (h₁ : strLt a b = false) (h₂ : strLt b a = false) :
    a = b :=
  String.ext (charsLt_eq_of_not a.data b.data h₁ h₂)

/-- Keys greater than a later key are greater than an earlier one. -/
theorem allKeysGt_of_lt {k k₀ : String} {l : List (String × JSON)}
    (hk : strLt k k₀ = true) (h : allKeysGt k₀ l = true) : allKeysGt k l = true := by
  simp only [allKeysGt, List.all_eq_true] at h ⊢
  intro p hp
  exact strLt_trans hk (h p hp)

/-- Sorted lists decompose: the head key is below every tail key and the
tail is sorted. -/
theorem sortedKeys_cons : ∀ (x : String × JSON) (l : List (String × JSON)),
    sortedKeys (x :: l) = true → allKeysGt x.1 l = true ∧ sortedKeys l = true
  | _, [] => by intro _; exact ⟨rfl, rfl⟩
  | (k₁, v₁), (k₂, v₂) :: rest => by
    intro h
    simp only [sortedKeys, Bool.and_eq_true] at h
    have htail := sortedKeys_cons (k₂, v₂) rest h.2
    refine ⟨?_, h.2⟩
    simp only [allKeysGt, List.all_cons, Bool.and_eq_true]
    exact ⟨h.1, allKeysGt_of_lt h.1 htail.1⟩

/-- Branch equation: diffing against an empty previous list keeps the
current list. -/
theorem diffFields_nil_l (gs : List (String × JSON)) : diffFields [] gs = gs := by
  cases gs <;> rw [diffFields.eq_def]

/-- Branch equation: diffing against an empty current list deletes all
previous keys. -/
theorem diffFields_nil_r (fs : List (String × JSON)) :
    diffFields fs [] = fs.map (fun p => (p.1, JSON.null)) := by
  cases fs <;> rw [diffFields.eq_def] <;> rfl

/-- Branch equation: a previous-only (smaller) head key is recorded as a
deletion. -/
theorem diffFields_cons_lt {k₁ k₂ : String} (v₁ v₂ : JSON)
    (fs gs : List (String × JSON)) (h : strLt k₁ k₂ = true) :
    diffFields ((k₁, v₁) :: fs) ((k₂, v₂) :: gs)
      = (k₁, JSON.null) :: diffFields fs ((k₂, v₂) :: gs) := by
  rw [diffFields.eq_def]; simp [h]

/-- Branch equation: a current-only (smaller) head key is recorded as an
addition. -/
theorem diffFields_cons_gt {k₁ k₂ : String} (v₁ v₂ : JSON)
    (fs gs : List (String × JSON)) (h₁ : strLt k₁ k₂ = false) (h₂ : strLt k₂ k₁ = true) :
    diffFields ((k₁, v₁) :: fs) ((k₂, v₂) :: gs)
      = (k₂, v₂) :: diffFields ((k₁, v₁) :: fs) gs := by
  rw [diffFields.eq_def]; simp [h₁, h₂]

/-- Branch equation: matched object values with an empty sub-diff are
omitted. -/
theorem diffFields_cons_eq_obj {k₁ k₂ : String} (a b : List (String × JSON))
    (fs gs : List (String × JSON)) (h₁ : strLt k₁ k₂ = false) (h₂ : strLt k₂ k₁ = false) :
    diffFields ((k₁, .obj a) :: fs) ((k₂, .obj b) :: gs)
      = if (diffFields a b).isEmpty then diffFields fs gs
        else (k₁, JSON.obj (diffFields a b)) :: diffFields fs gs := by
  rw [diffFields.eq_def]; simp [h₁, h₂]

/-- Branch equation: matched non-object values are compared wholly and
replaced wholly when different. -/
theorem diffFields_cons_eq_other {k₁ k₂ : String} (w₁ w₂ : JSON)
    (fs gs : List (String × JSON)) (h₁ : strLt k₁ k₂ = false) (h₂ : strLt k₂ k₁ = false)
    (hno : ∀ a b, w₁ = JSON.obj a → w₂ = JSON.obj b → False) :
    diffFields ((k₁, w₁) :: fs) ((k₂, w₂) :: gs)
      = if JSON.beq w₁ w₂ then diffFields fs gs else (k₂, w₂) :: diffFields fs gs := by
  rw [diffFields.eq_def]
  cases w₁ <;> cases w₂ <;> simp [h₁, h₂] <;> exact (hno _ _ rfl rfl).elim

/-- Branch equation: an empty patch list leaves the target unchanged. -/
theorem applyFields_nil_r (fs : List (String × JSON)) : applyFields fs [] = fs := by
  cases fs <;> rw [applyFields.eq_def]

/-- Branch equation: patching an empty target drops null patch fields
and merges the rest into an empty base. -/
theorem applyFields_nil_l (k : String) (v : JSON) (gs : List (String × JSON)) :
    applyFields [] ((k, v) :: gs)
      = if v.isNull then applyFields [] gs
        else (k, JSON.apply .null v) :: applyFields [] gs := by
  rw [applyFields.eq_def]

/-- Branch equation: a target-only (smaller) head key is retained. -/
theorem applyFields_cons_lt {k₁ k₂ : String} (v₁ v₂ : JSON)
    (fs gs : List (String × JSON)) (h : strLt k₁ k₂ = true) :
    applyFields ((k₁, v₁) :: fs) ((k₂, v₂) :: gs)
      = (k₁, v₁) :: applyFields fs ((k₂, v₂) :: gs) := by
  rw [applyFields.eq_def]; simp [h]

/-- Branch equation: a patch-only (smaller) head key is added unless
null. -/
theorem applyFields_cons_gt {k₁ k₂ : String} (v₁ v₂ : JSON)
    (fs gs : List (String × JSON)) (h₁ : strLt k₁ k₂ = false) (h₂ : strLt k₂ k₁ = true) :
    applyFields ((k₁, v₁) :: fs) ((k₂, v₂) :: gs)
      = if v₂.isNull then applyFields ((k₁, v₁) :: fs) gs
        else (k₂, JSON.apply .null v₂) :: applyFields ((k₁, v₁) :: fs) gs := by
  rw [applyFields.eq_def]; simp [h₁, h₂]

/-- Branch equation: matched head keys merge the values, a null patch
value deleting the field. -/
theorem applyFields_cons_eq {k₁ k₂ : String} (v₁ v₂ : JSON)
    (fs gs : List (String × JSON)) (h₁ : strLt k₁ k₂ = false) (h₂ : strLt k₂ k₁ = false) :
    applyFields ((k₁, v₁) :: fs) ((k₂, v₂) :: gs)
      = if v₂.isNull then applyFields fs gs
        else (k₁, JSON.apply v₁ v₂) :: applyFields fs gs := by
  rw [applyFields.eq_def]; simp [h₁, h₂]

/-- Branch equation: applying an object patch merges into the base
object's fields (and into no fields at all for a non-object base). -/
theorem apply_obj (b : JSON) (gs : List (String × JSON)) :
    JSON.apply b (.obj gs) = .obj (applyFields b.objFields gs) := by
  rw [JSON.apply.eq_def]

/-- Branch equation: a non-object patch replaces the base wholly. -/
theorem apply_not_obj (b p : JSON) (h : p.isObj = false) : JSON.apply b p = p := by
  cases p with
  | obj gs => simp [JSON.isObj] at h
  | null => rw [JSON.apply.eq_def]
  | bool x => rw [JSON.apply.eq_def]
  | num x => rw [JSON.apply.eq_def]
  | str x => rw [JSON.apply.eq_def]
  | arr x => rw [JSON.apply.eq_def]

/-- Unfolding equation for `wfFields` on a cons cell. -/
theorem wfFields_cons (k : String) (v : JSON) (l : List (String × JSON)) :
    wfFields ((k, v) :: l) = (JSON.wf v && wfFields l) := by
  rw [wfFields.eq_def]

/-- Unfolding equation for `JSON.wf` on an object. -/
theorem wf_obj (fs : List (String × JSON)) :
    JSON.wf (.obj fs) = (sortedKeys fs && wfFields fs) := by
  rw [JSON.wf.eq_def]

/-- Unfolding equation for `noNullFields` on a cons cell. -/
theorem noNullFields_cons (k : String) (v : JSON) (l : List (String × JSON)) :
    noNullFields ((k, v) :: l) = (!v.isNull && JSON.noNull v && noNullFields l) := by
  rw [noNullFields.eq_def]

/-- Unfolding equation for `JSON.noNull` on an object. -/
theorem noNull_obj (fs : List (String × JSON)) :
    JSON.noNull (.obj fs) = noNullFields fs := by
  rw [JSON.noNull.eq_def]

/-- Cons unfolding of `allKeysGt`. -/
theorem allKeysGt_cons (k : String) (x : String × JSON) (l : List (String × JSON)) :
    allKeysGt k (x :: l) = (strLt k x.1 && allKeysGt k l) := by
  simp [allKeysGt]

mutual

/-- Boolean equality on JSON values agrees with propositional equality. -/
theorem JSON.beq_iff : ∀ a b : JSON, JSON.beq a b = true ↔ a = b
  | .null, .null => by simp [JSON.beq]
  | .bool _, .bool _ => by simp [JSON.beq]
  | .num _, .num _ => by simp [JSON.beq]
  | .str _, .str _ => by simp [JSON.beq]
  | .arr xs, .arr ys => by
    simp only [JSON.beq, beqList_iff xs ys, JSON.arr.injEq]
  | .obj fs, .obj gs => by
    simp only [JSON.beq, beqFields_iff fs gs, JSON.obj.injEq]
  | .null, .bool _ | .null, .num _ | .null, .str _ | .null, .arr _ | .null, .obj _
  | .bool _, .null | .bool _, .num _ | .bool _, .str _ | .bool _, .arr _ | .bool _, .obj _
  | .num _, .null | .num _, .bool _ | .num _, .str _ | .num _, .arr _ | .num _, .obj _
  | .str _, .null | .str _, .bool _ | .str _, .num _ | .str _, .arr _ | .str _, .obj _
  | .arr _, .null | .arr _, .bool _ | .arr _, .num _ | .arr _, .str _ | .arr _, .obj _
  | .obj _, .null | .obj _, .bool _ | .obj _, .num _ | .obj _, .str _ | .obj _, .arr _ => by
    simp [JSON.beq]
termination_by a _ => sizeOf a

/-- Boolean equality on JSON lists agrees with propositional equality. -/
theorem beqList_iff : ∀ xs ys : List JSON, beqList xs ys = true ↔ xs = ys
  | [], [] => by simp [beqList]
  | x :: xs, y :: ys => by
    simp only [beqList, Bool.and_eq_true, JSON.beq_iff x y, beqList_iff xs ys, List.cons.injEq]
  | [], _ :: _ => by simp [beqList]
  | _ :: _, [] => by simp [beqList]
termination_by a _ => sizeOf a

/-- Boolean equality on field lists agrees with propositional equality. -/
theorem beqFields_iff : ∀ xs ys : List (String × JSON), beqFields xs ys = true ↔ xs = ys
  | [], [] => by simp [beqFields]
  | (k, v) :: fs, (l, w) :: gs => by
    simp only [beqFields, Bool.and_eq_true, beq_iff_eq, JSON.beq_iff v w, beqFields_iff fs gs,
      List.cons.injEq, Prod.mk.injEq, and_assoc]
  | [], _ :: _ => by simp [beqFields]
  | _ :: _, [] => by simp [beqFields]
termination_by a _ => sizeOf a

end

/-- Keys of a field diff all come from one of the two inputs: a lower
bound on both inputs' keys bounds the diff's keys. -/
theorem diffFields_allKeysGt (k : String) : ∀ fs gs,
    allKeysGt k fs = true → allKeysGt k gs = true →
    allKeysGt k (diffFields fs gs) = true := by
  intro fs gs
  induction fs, gs using diffFields.induct with
  | case1 gs => intro _ h; rwa [diffFields_nil_l]
  | case2 fs _ =>
    intro h _
    rw [diffFields_nil_r]
    simp only [allKeysGt, List.all_eq_true] at h ⊢
    intro p hp
    simp only [List.mem_map] at hp
    obtain ⟨q, hq, rfl⟩ := hp
    exact h q hq
  | case3 k₁ v₁ fs k₂ v₂ gs hlt ih =>
    intro h₁ h₂
    rw [allKeysGt_cons, Bool.and_eq_true] at h₁
    rw [diffFields_cons_lt _ _ _ _ hlt, allKeysGt_cons, Bool.and_eq_true]
    exact ⟨h₁.1, ih h₁.2 h₂⟩
  | case4 k₁ v₁ fs k₂ v₂ gs hn1 hlt ih =>
    intro h₁ h₂
    rw [allKeysGt_cons, Bool.and_eq_true] at h₂
    rw [diffFields_cons_gt _ _ _ _ (by simpa using hn1) hlt, allKeysGt_cons, Bool.and_eq_true]
    exact ⟨h₂.1, ih h₁ h₂.2⟩
  | case5 k₁ fs k₂ gs hn1 hn2 a b sub hsub iha ih =>
    intro h₁ h₂
    rw [allKeysGt_cons, Bool.and_eq_true] at h₁ h₂
    rw [diffFields_cons_eq_obj a b fs gs (by simpa using hn1) (by simpa using hn2),
      if_pos (show (diffFields a b).isEmpty = true from hsub)]
    exact ih h₁.2 h₂.2
  | case6 k₁ fs k₂ gs hn1 hn2 a b sub hsub iha ih =>
    intro h₁ h₂
    rw [allKeysGt_cons, Bool.and_eq_true] at h₁ h₂
    rw [diffFields_cons_eq_obj a b fs gs (by simpa using hn1) (by simpa using hn2),
      if_neg (by simpa using (show (diffFields a b).isEmpty = false from by simpa using hsub)), allKeysGt_cons, Bool.and_eq_true]
    exact ⟨h₁.1, ih h₁.2 h₂.2⟩
  | case7 k₁ fs k₂ gs hn1 hn2 w₁ w₂ hno hbeq ih =>
    intro h₁ h₂
    rw [allKeysGt_cons, Bool.and_eq_true] at h₁ h₂
    rw [diffFields_cons_eq_other w₁ w₂ fs gs (by simpa using hn1) (by simpa using hn2) hno,
      if_pos hbeq]
    exact ih h₁.2 h₂.2
  | case8 k₁ fs k₂ gs hn1 hn2 w₁ w₂ hno hbeq ih =>
    intro h₁ h₂
    rw [allKeysGt_cons, Bool.and_eq_true] at h₁ h₂
    rw [diffFields_cons_eq_other w₁ w₂ fs gs (by simpa using hn1) (by simpa using hn2) hno,
      if_neg (by simpa using hbeq), allKeysGt_cons, Bool.and_eq_true]
    exact ⟨h₂.1, ih h₁.2 h₂.2⟩

/-- Merging a patch whose keys all exceed the base's head key leaves the
head field untouched in front. -/
theorem applyFields_skip {k : String} (v : JSON) (fs ds : List (String × JSON))
    (h : allKeysGt k ds = true) :
    applyFields ((k, v) :: fs) ds = (k, v) :: applyFields fs ds := by
  cases ds with
  | nil => rw [applyFields_nil_r, applyFields_nil_r]
  | cons d ds =>
    rw [allKeysGt_cons, Bool.and_eq_true] at h
    obtain ⟨kd, vd⟩ := d
    exact applyFields_cons_lt v vd fs ds h.1

mutual

/-- Applying a null-free patch value to the null base reproduces the
patch value (the base case of RFC 7396 recursion into absent fields). -/
theorem apply_null_eq : ∀ v : JSON, JSON.noNull v = true → JSON.apply .null v = v
  | .obj gs, h => by
    rw [apply_obj]
    show JSON.obj (applyFields [] gs) = JSON.obj gs
    rw [applyFields_nil_of_noNull gs (by rw [noNull_obj] at h; exact h)]
  | .null, _ => apply_not_obj _ _ rfl
  | .bool _, _ => apply_not_obj _ _ rfl
  | .num _, _ => apply_not_obj _ _ rfl
  | .str _, _ => apply_not_obj _ _ rfl
  | .arr _, _ => apply_not_obj _ _ rfl
termination_by v _ => sizeOf v

/-- Applying a null-free patch field list to the empty base reproduces
the patch field list. -/
theorem applyFields_nil_of_noNull : ∀ gs : List (String × JSON),
    noNullFields gs = true → applyFields [] gs = gs
  | [], _ => applyFields_nil_r []
  | (k, v) :: gs, h => by
    rw [noNullFields_cons, Bool.and_eq_true, Bool.and_eq_true] at h
    rw [applyFields_nil_l, if_neg (by simp [Bool.not_eq_true] at h ⊢; exact h.1.1),
      apply_null_eq v h.1.2, applyFields_nil_of_noNull gs h.2]
termination_by gs _ => sizeOf gs

end

/-- An empty field diff forces the two field lists to be equal. -/
theorem diffFields_eq_nil : ∀ fs gs, diffFields fs gs = [] → fs = gs := by
  intro fs gs
  induction fs, gs using diffFields.induct with
  | case1 gs => intro h; rw [diffFields_nil_l] at h; exact h.symm
  | case2 fs _ =>
    intro h
    rw [diffFields_nil_r] at h
    simpa using (List.map_eq_nil_iff.mp h)
  | case3 k₁ v₁ fs k₂ v₂ gs hlt ih =>
    intro h
    rw [diffFields_cons_lt _ _ _ _ hlt] at h
    simp at h
  | case4 k₁ v₁ fs k₂ v₂ gs hn1 hlt ih =>
    intro h
    rw [diffFields_cons_gt _ _ _ _ (by simpa using hn1) hlt] at h
    simp at h
  | case5 k₁ fs k₂ gs hn1 hn2 a b sub hsub iha ih =>
    intro h
    rw [diffFields_cons_eq_obj a b fs gs (by simpa using hn1) (by simpa using hn2),
      if_pos (show (diffFields a b).isEmpty = true from hsub)] at h
    have hk : k₁ = k₂ := strLt_eq_of_not (by simpa using hn1) (by simpa using hn2)
    have hab : a = b := iha (by simpa [List.isEmpty_iff] using (show (diffFields a b).isEmpty = true from hsub))
    rw [hk, hab, ih h]
  | case6 k₁ fs k₂ gs hn1 hn2 a b sub hsub iha ih =>
    intro h
    rw [diffFields_cons_eq_obj a b fs gs (by simpa using hn1) (by simpa using hn2),
      if_neg (by simpa using (show (diffFields a b).isEmpty = false from by simpa using hsub))] at h
    simp at h
  | case7 k₁ fs k₂ gs hn1 hn2 w₁ w₂ hno hbeq ih =>
    intro h
    rw [diffFields_cons_eq_other w₁ w₂ fs gs (by simpa using hn1) (by simpa using hn2) hno,
      if_pos hbeq] at h
    have hk : k₁ = k₂ := strLt_eq_of_not (by simpa using hn1) (by simpa using hn2)
    have hw : w₁ = w₂ := (JSON.beq_iff w₁ w₂).mp hbeq
    rw [hk, hw, ih h]
  | case8 k₁ fs k₂ gs hn1 hn2 w₁ w₂ hno hbeq ih =>
    intro h
    rw [diffFields_cons_eq_other w₁ w₂ fs gs (by simpa using hn1) (by simpa using hn2) hno,
      if_neg (by simpa using hbeq)] at h
    simp at h

/-- Applying the all-deletions diff of a field list to itself empties
it. -/
theorem applyFields_map_null : ∀ fs : List (String × JSON),
    applyFields fs (fs.map (fun p => (p.1, JSON.null))) = []
  | [] => applyFields_nil_r []
  | (k, v) :: fs => by
    show applyFields ((k, v) :: fs) ((k, JSON.null) :: fs.map (fun p => (p.1, JSON.null))) = []
    rw [applyFields_cons_eq v JSON.null fs _ (strLt_irrefl k) (strLt_irrefl k)]
    simp only [JSON.isNull, if_true]
    exact applyFields_map_null fs

/-- Applying a null-free patch value to a non-object base reproduces the
patch value. -/
theorem apply_eq_of_base_not_obj (b v : JSON) (hb : b.isObj = false)
    (hv : JSON.noNull v = true) : JSON.apply b v = v := by
  cases v with
  | obj gs =>
    rw [apply_obj]
    have hfb : b.objFields = [] := by
      cases b with
      | obj fs => simp [JSON.isObj] at hb
      | null => rfl
      | bool x => rfl
      | num x => rfl
      | str x => rfl
      | arr x => rfl
    rw [hfb, applyFields_nil_of_noNull gs (by rwa [noNull_obj] at hv)]
  | null => exact apply_not_obj _ _ rfl
  | bool x => exact apply_not_obj _ _ rfl
  | num x => exact apply_not_obj _ _ rfl
  | str x => exact apply_not_obj _ _ rfl
  | arr x => exact apply_not_obj _ _ rfl

/-- Round trip at the field level: applying the diff of two canonical
field lists to the first reproduces the second, provided the second
binds no field to null. -/
theorem applyFields_diffFields : ∀ fs gs,
    sortedKeys fs = true → sortedKeys gs = true →
    wfFields fs = true → wfFields gs = true → noNullFields gs = true →
    applyFields fs (diffFields fs gs) = gs := by
  intro fs gs
  induction fs, gs using diffFields.induct with
  | case1 gs =>
    intro _ _ _ _ hn
    rw [diffFields_nil_l]
    exact applyFields_nil_of_noNull gs hn
  | case2 fs _ =>
    intro _ _ _ _ _
    rw [diffFields_nil_r]
    exact applyFields_map_null fs
  | case3 k₁ v₁ fs k₂ v₂ gs hlt ih =>
    intro hs₁ hs₂ hw₁ hw₂ hn
    rw [diffFields_cons_lt _ _ _ _ hlt,
      applyFields_cons_eq v₁ JSON.null fs _ (strLt_irrefl k₁) (strLt_irrefl k₁)]
    simp only [JSON.isNull, if_true]
    rw [wfFields_cons, Bool.and_eq_true] at hw₁
    exact ih (sortedKeys_cons _ _ hs₁).2 hs₂ hw₁.2 hw₂ hn
  | case4 k₁ v₁ fs k₂ v₂ gs hn1 hlt ih =>
    intro hs₁ hs₂ hw₁ hw₂ hn
    rw [noNullFields_cons, Bool.and_eq_true, Bool.and_eq_true] at hn
    rw [wfFields_cons, Bool.and_eq_true] at hw₂
    have hv₂ : v₂.isNull = false := by simpa using hn.1.1
    rw [diffFields_cons_gt _ _ _ _ (by simpa using hn1) hlt,
      applyFields_cons_gt _ _ _ _ (by simpa using hn1) hlt, if_neg (by simp [hv₂]),
      apply_null_eq v₂ hn.1.2]
    congr 1
    exact ih hs₁ (sortedKeys_cons _ _ hs₂).2 hw₁ hw₂.2 hn.2
  | case5 k₁ fs k₂ gs hn1 hn2 a b sub hsub iha ih =>
    intro hs₁ hs₂ hw₁ hw₂ hn
    have hk : k₁ = k₂ := strLt_eq_of_not (by simpa using hn1) (by simpa using hn2)
    have hab : a = b := diffFields_eq_nil a b
      (by simpa [List.isEmpty_iff] using (show (diffFields a b).isEmpty = true from hsub))
    rw [diffFields_cons_eq_obj a b fs gs (by simpa using hn1) (by simpa using hn2),
      if_pos (show (diffFields a b).isEmpty = true from hsub)]
    have hkfs : allKeysGt k₁ fs = true := (sortedKeys_cons _ _ hs₁).1
    have hkgs : allKeysGt k₁ gs = true := hk ▸ (sortedKeys_cons _ _ hs₂).1
    rw [applyFields_skip _ _ _ (diffFields_allKeysGt k₁ fs gs hkfs hkgs)]
    rw [wfFields_cons, Bool.and_eq_true] at hw₁ hw₂
    rw [noNullFields_cons, Bool.and_eq_true, Bool.and_eq_true] at hn
    rw [ih (sortedKeys_cons _ _ hs₁).2 (sortedKeys_cons _ _ hs₂).2 hw₁.2 hw₂.2 hn.2, hk, hab]
  | case6 k₁ fs k₂ gs hn1 hn2 a b sub hsub iha ih =>
    intro hs₁ hs₂ hw₁ hw₂ hn
    have hk : k₁ = k₂ := strLt_eq_of_not (by simpa using hn1) (by simpa using hn2)
    rw [diffFields_cons_eq_obj a b fs gs (by simpa using hn1) (by simpa using hn2),
      if_neg (show ¬(diffFields a b).isEmpty = true from hsub)]
    rw [applyFields_cons_eq (JSON.obj a) (JSON.obj (diffFields a b)) fs _
      (strLt_irrefl k₁) (strLt_irrefl k₁)]
    rw [if_neg (by simp [JSON.isNull])]
    rw [apply_obj]
    simp only [JSON.objFields]
    rw [wfFields_cons, Bool.and_eq_true] at hw₁ hw₂
    rw [noNullFields_cons, Bool.and_eq_true, Bool.and_eq_true] at hn
    have hwa := hw₁.1
    rw [wf_obj, Bool.and_eq_true] at hwa
    have hwb := hw₂.1
    rw [wf_obj, Bool.and_eq_true] at hwb
    have hnb := hn.1.2
    rw [noNull_obj] at hnb
    rw [iha hwa.1 hwb.1 hwa.2 hwb.2 hnb]
    rw [ih (sortedKeys_cons _ _ hs₁).2 (sortedKeys_cons _ _ hs₂).2 hw₁.2 hw₂.2 hn.2, hk]
  | case7 k₁ fs k₂ gs hn1 hn2 w₁ w₂ hno hbeq ih =>
    intro hs₁ hs₂ hw₁ hw₂ hn
    have hk : k₁ = k₂ := strLt_eq_of_not (by simpa using hn1) (by simpa using hn2)
    have hw : w₁ = w₂ := (JSON.beq_iff w₁ w₂).mp hbeq
    rw [diffFields_cons_eq_other w₁ w₂ fs gs (by simpa using hn1) (by simpa using hn2) hno,
      if_pos hbeq]
    have hkfs : allKeysGt k₁ fs = true := (sortedKeys_cons _ _ hs₁).1
    have hkgs : allKeysGt k₁ gs = true := hk ▸ (sortedKeys_cons _ _ hs₂).1
    rw [applyFields_skip _ _ _ (diffFields_allKeysGt k₁ fs gs hkfs hkgs)]
    rw [wfFields_cons, Bool.and_eq_true] at hw₁ hw₂
    rw [noNullFields_cons, Bool.and_eq_true, Bool.and_eq_true] at hn
    rw [ih (sortedKeys_cons _ _ hs₁).2 (sortedKeys_cons _ _ hs₂).2 hw₁.2 hw₂.2 hn.2, hk, hw]
  | case8 k₁ fs k₂ gs hn1 hn2 w₁ w₂ hno hbeq ih =>
    intro hs₁ hs₂ hw₁ hw₂ hn
    have hk : k₁ = k₂ := strLt_eq_of_not (by simpa using hn1) (by simpa using hn2)
    rw [noNullFields_cons, Bool.and_eq_true, Bool.and_eq_true] at hn
    have hw₂null : w₂.isNull = false := by simpa using hn.1.1
    rw [diffFields_cons_eq_other w₁ w₂ fs gs (by simpa using hn1) (by simpa using hn2) hno,
      if_neg hbeq]
    rw [applyFields_cons_eq w₁ w₂ fs _ (by simpa using hn1) (by simpa using hn2),
      if_neg (by simp [hw₂null])]
    have happ : JSON.apply w₁ w₂ = w₂ := by
      by_cases ho : w₂.isObj = true
      · cases w₂ with
        | obj gs₂ =>
          have hw₁o : w₁.isObj = false := by
            cases w₁ with
            | obj a => exact (hno a gs₂ rfl rfl).elim
            | null => rfl
            | bool x => rfl
            | num x => rfl
            | str x => rfl
            | arr x => rfl
          exact apply_eq_of_base_not_obj w₁ _ hw₁o hn.1.2
        | null => simp [JSON.isObj] at ho
        | bool x => simp [JSON.isObj] at ho
        | num x => simp [JSON.isObj] at ho
        | str x => simp [JSON.isObj] at ho
        | arr x => simp [JSON.isObj] at ho
      · exact apply_not_obj w₁ w₂ (by simpa using ho)
    rw [happ]
    rw [wfFields_cons, Bool.and_eq_true] at hw₁ hw₂
    rw [ih (sortedKeys_cons _ _ hs₁).2 (sortedKeys_cons _ _ hs₂).2 hw₁.2 hw₂.2 hn.2, hk]

/-- Branch equation: the reducer step on a create-typed event. -/
theorem reduceStep_create (bk : Key) (e : patchEvent) (txn : Store)
    (hty : e.Patch.type = create) :
    reduceStep bk e txn =
      if hasKey txn (bk ++ [e.ModelName, e.ID]) then .error .errCantCreateExistingInstance
      else .ok (putKey txn (bk ++ [e.ModelName, e.ID]) e.Patch.JSONPatch,
                ⟨ActionCreate, e.ModelName, e.ID⟩) := by
  simp [reduceStep, hty]

/-- Branch equation: the reducer step on a save-typed event. -/
theorem reduceStep_save (bk : Key) (e : patchEvent) (txn : Store)
    (hty : e.Patch.type = save) :
    reduceStep bk e txn =
      match getKey txn (bk ++ [e.ModelName, e.ID]) with
      | none => .error .errSavingNonExistentInstance
      | some value =>
        .ok (putKey txn (bk ++ [e.ModelName, e.ID]) (MergePatch value e.Patch.JSONPatch),
             ⟨ActionSave, e.ModelName, e.ID⟩) := by
  simp [reduceStep, hty, create, save]

/-- Branch equation: the reducer step on a delete-typed event. -/
theorem reduceStep_delete (bk : Key) (e : patchEvent) (txn : Store)
    (hty : e.Patch.type = delete) :
    reduceStep bk e txn =
      .ok (deleteKey txn (bk ++ [e.ModelName, e.ID]), ⟨ActionDelete, e.ModelName, e.ID⟩) := by
  simp [reduceStep, hty, create, save, delete]

/-- Decomposition of the reducer loop over a list split. -/
theorem reduceLoop_append (bk : Key) : ∀ (xs ys : List patchEvent) (st : Store),
    reduceLoop bk (xs ++ ys) st =
      match reduceLoop bk xs st with
      | .error er => .error er
      | .ok (st₁, acts) =>
        match reduceLoop bk ys st₁ with
        | .error er => .error er
        | .ok (st₂, acts₂) => .ok (st₂, acts ++ acts₂)
  | [], ys, st => by
    simp only [List.nil_append]
    show reduceLoop bk ys st =
      match reduceLoop bk ys st with
      | .error er => .error er
      | .ok (st₂, acts₂) => .ok (st₂, [] ++ acts₂)
    cases h : reduceLoop bk ys st with
    | error er => rfl
    | ok q => obtain ⟨st₂, acts₂⟩ := q; simp
  | e :: xs, ys, st => by
    show reduceLoop bk (e :: (xs ++ ys)) st = _
    simp only [reduceLoop]
    cases hstep : reduceStep bk e st with
    | error er => rfl
    | ok p =>
      obtain ⟨st₁, act⟩ := p
      dsimp only
      rw [reduceLoop_append bk xs ys st₁]
      cases h₁ : reduceLoop bk xs st₁ with
      | error er => rfl
      | ok q =>
        obtain ⟨st₂, acts⟩ := q
        dsimp only
        cases h₂ : reduceLoop bk ys st₂ with
        | error er => rfl
        | ok r => obtain ⟨st₃, acts₂⟩ := r; simp

/-- Deleting an absent key leaves the store unchanged. -/
theorem deleteKey_absent : ∀ (st : Store) (k : Key), hasKey st k = false →
    deleteKey st k = st
  | [], _, _ => rfl
  | (k₀, v₀) :: rest, k, h => by
    simp only [hasKey, List.any_cons, Bool.or_eq_false_iff] at h
    have htail : deleteKey rest k = rest := deleteKey_absent rest k h.2
    simp only [deleteKey, List.filter_cons] at htail ⊢
    simp [h.1, htail]

/--
C1: for every event sequence and every transactional store, if Reduce
fails (returns an error), the store after the call equals the store
before the call — no event's effect, including ones preceding the
failure, is visible — and nothing but the error is returned.
-/
theorem reduce_failure_full_rollback (events : List patchEvent) (st : Store) (bk : Key)
    (er : ReduceError) (h : (Reduce events st bk).outcomes = .error er) :
    (Reduce events st bk).datastore = st := by
  cases hr : reduceLoop bk events st with
  | error e =>
    unfold Reduce
    rw [hr]
  | ok p =>
    obtain ⟨txn, acts⟩ := p
    unfold Reduce at h
    rw [hr] at h
    simp at h

/-- Witness for C1 at spec Scenario E: reducing a Create of A followed
by a Save of a missing B on the empty store fails with
errSavingNonExistentInstance, and afterwards the store is still empty
(A is absent: full rollback). -/
theorem reduce_failure_full_rollback_witness :
    (Reduce [evCreateA, evSaveB] [] []).outcomes
        = .error ReduceError.errSavingNonExistentInstance
    ∧ (Reduce [evCreateA, evSaveB] [] []).datastore = [] :=
  ⟨rfl, reduce_failure_full_rollback [evCreateA, evSaveB] [] [] _ rfl⟩

/--
C5: a Create event whose store key already exists at reduction time
fails the whole call with errCantCreateExistingInstance and leaves the
store unmutated; with the key absent, the loop continues with the
event's payload written verbatim under the key, recording a Create
outcome.
-/
theorem reduce_create_semantics (bk : Key) (pre post : List patchEvent) (e : patchEvent)
    (st txn : Store) (acts : List ReduceAction)
    (hty : e.Patch.type = create)
    (hpre : reduceLoop bk pre st = .ok (txn, acts)) :
    (hasKey txn (bk ++ [e.ModelName, e.ID]) = true →
      Reduce (pre ++ e :: post) st bk = ⟨.error .errCantCreateExistingInstance, st⟩)
    ∧ (hasKey txn (bk ++ [e.ModelName, e.ID]) = false →
      reduceLoop bk (pre ++ e :: post) st =
        match reduceLoop bk post (putKey txn (bk ++ [e.ModelName, e.ID]) e.Patch.JSONPatch) with
        | .error er => .error er
        | .ok (st₂, acts₂) =>
          .ok (st₂, acts ++ (⟨ActionCreate, e.ModelName, e.ID⟩ : ReduceAction) :: acts₂)) := by
  constructor
  · intro hex
    have hloop : reduceLoop bk (pre ++ e :: post) st = .error .errCantCreateExistingInstance := by
      rw [reduceLoop_append bk pre (e :: post) st, hpre]
      simp only [reduceLoop, reduceStep_create bk e txn hty, hex, if_true]
    unfold Reduce
    rw [hloop]
  · intro hab
    rw [reduceLoop_append bk pre (e :: post) st, hpre]
    simp only [reduceLoop, reduceStep_create bk e txn hty, hab, Bool.false_eq_true, if_false]
    cases hrec : reduceLoop bk post (putKey txn (bk ++ [e.ModelName, e.ID]) e.Patch.JSONPatch) with
    | error er => rfl
    | ok q => obtain ⟨st₂, acts₂⟩ := q; simp

/-- Witness for C5 at spec Scenario A: a second Create of user/A on a
store already holding that key fails with
errCantCreateExistingInstance and leaves the store unchanged. -/
theorem reduce_create_semantics_witness :
    Reduce [evCreateA] stA []
      = ⟨.error ReduceError.errCantCreateExistingInstance, stA⟩ :=
  (reduce_create_semantics [] [] [] evCreateA stA stA [] rfl rfl).1 rfl

/--
C6: a Save event whose store key is absent at reduction time fails the
whole call with errSavingNonExistentInstance and creates no key (the
store is unmutated); with the key present, the loop continues with the
stored value replaced by the merge patch of the event's payload applied
to it, recording a Save outcome.
-/
theorem reduce_save_semantics (bk : Key) (pre post : List patchEvent) (e : patchEvent)
    (st txn : Store) (acts : List ReduceAction)
    (hty : e.Patch.type = save)
    (hpre : reduceLoop bk pre st = .ok (txn, acts)) :
    (getKey txn (bk ++ [e.ModelName, e.ID]) = none →
      Reduce (pre ++ e :: post) st bk = ⟨.error .errSavingNonExistentInstance, st⟩)
    ∧ (∀ value, getKey txn (bk ++ [e.ModelName, e.ID]) = some value →
      reduceLoop bk (pre ++ e :: post) st =
        match reduceLoop bk post
            (putKey txn (bk ++ [e.ModelName, e.ID]) (MergePatch value e.Patch.JSONPatch)) with
        | .error er => .error er
        | .ok (st₂, acts₂) =>
          .ok (st₂, acts ++ (⟨ActionSave, e.ModelName, e.ID⟩ : ReduceAction) :: acts₂)) := by
  constructor
  · intro hmiss
    have hloop : reduceLoop bk (pre ++ e :: post) st = .error .errSavingNonExistentInstance := by
      rw [reduceLoop_append bk pre (e :: post) st, hpre]
      simp only [reduceLoop, reduceStep_save bk e txn hty, hmiss]
    unfold Reduce
    rw [hloop]
  · intro value hval
    rw [reduceLoop_append bk pre (e :: post) st, hpre]
    simp only [reduceLoop, reduceStep_save bk e txn hty, hval]
    cases hrec : reduceLoop bk post
        (putKey txn (bk ++ [e.ModelName, e.ID]) (MergePatch value e.Patch.JSONPatch)) with
    | error er => rfl
    | ok q => obtain ⟨st₂, acts₂⟩ := q; simp

/-- Witness for C6 at spec Scenario C: a Save of user/B on the empty
store fails with errSavingNonExistentInstance and creates no key. -/
theorem reduce_save_semantics_witness :
    Reduce [evSaveB] [] [] = ⟨.error ReduceError.errSavingNonExistentInstance, []⟩ :=
  (reduce_save_semantics [] [] [] evSaveB [] [] [] rfl rfl).1 rfl

/--
C8: a Delete event always succeeds: the loop continues with the key
removed from the transaction state, recording a Delete outcome and
producing no error from this event; when the key is absent the removal
is the identity, so the store is unchanged (idempotence).
-/
theorem reduce_delete_semantics (bk : Key) (pre post : List patchEvent) (e : patchEvent)
    (st txn : Store) (acts : List ReduceAction)
    (hty : e.Patch.type = delete)
    (hpre : reduceLoop bk pre st = .ok (txn, acts)) :
    (reduceLoop bk (pre ++ e :: post) st =
      match reduceLoop bk post (deleteKey txn (bk ++ [e.ModelName, e.ID])) with
      | .error er => .error er
      | .ok (st₂, acts₂) =>
        .ok (st₂, acts ++ (⟨ActionDelete, e.ModelName, e.ID⟩ : ReduceAction) :: acts₂))
    ∧ (hasKey txn (bk ++ [e.ModelName, e.ID]) = false →
      deleteKey txn (bk ++ [e.ModelName, e.ID]) = txn) := by
  constructor
  · rw [reduceLoop_append bk pre (e :: post) st, hpre]
    simp only [reduceLoop, reduceStep_delete bk e txn hty]
    cases hrec : reduceLoop bk post (deleteKey txn (bk ++ [e.ModelName, e.ID])) with
    | error er => rfl
    | ok q => obtain ⟨st₂, acts₂⟩ := q; simp
  · intro hab
    exact deleteKey_absent txn _ hab

/-- Witness for C8 at spec Scenario D: reducing a Delete of user/A on
the empty store succeeds with a Delete outcome and no store change. -/
theorem reduce_delete_semantics_witness :
    reduceLoop [] [evDeleteA] [] =
      .ok ([], [(⟨ActionDelete, "user", "A"⟩ : ReduceAction)])
    ∧ deleteKey ([] : Store) ([] ++ [evDeleteA.ModelName, evDeleteA.ID]) = [] := by
  have h := reduce_delete_semantics [] [] [] evDeleteA [] [] [] rfl rfl
  exact ⟨by rw [show ([evDeleteA] : List patchEvent) = [] ++ evDeleteA :: [] from rfl, h.1]; rfl, h.2 rfl⟩

/--
C2 (amended): for canonical (key-sorted) JSON objects P and C where C
binds no object field to null, applying the merge patch Diff(P, C) to P
yields exactly C. The null restriction is forced: RFC 7396 reserves
null for field deletion, so a null-valued field of C is erased rather
than reproduced (see the counterexample).
-/
theorem apply_diff_roundtrip (P C : JSON)
    (hPo : P.isObj = true) (hCo : C.isObj = true)
    (hwP : JSON.wf P = true) (hwC : JSON.wf C = true) (hnC : JSON.noNull C = true) :
    JSON.apply P (JSON.diff P C) = C := by
  cases P with
  | obj fs =>
    cases C with
    | obj gs =>
      rw [show JSON.diff (.obj fs) (.obj gs) = .obj (diffFields fs gs) from rfl, apply_obj]
      show JSON.obj (applyFields fs (diffFields fs gs)) = JSON.obj gs
      rw [wf_obj, Bool.and_eq_true] at hwP hwC
      rw [noNull_obj] at hnC
      rw [applyFields_diffFields fs gs hwP.1 hwC.1 hwP.2 hwC.2 hnC]
    | null => simp [JSON.isObj] at hCo
    | bool x => simp [JSON.isObj] at hCo
    | num x => simp [JSON.isObj] at hCo
    | str x => simp [JSON.isObj] at hCo
    | arr x => simp [JSON.isObj] at hCo
  | null => simp [JSON.isObj] at hPo
  | bool x => simp [JSON.isObj] at hPo
  | num x => simp [JSON.isObj] at hPo
  | str x => simp [JSON.isObj] at hPo
  | arr x => simp [JSON.isObj] at hPo

/--
C2 as stated is false on the code: for the JSON object values
P = the empty object and C = the object binding field a to null,
Apply(P, Diff(P, C)) is the empty object, not C — merge patches cannot
reproduce a null-valued field (RFC 7396 uses null for deletion).
-/
theorem apply_diff_roundtrip_counterexample :
    ((JSON.obj []).isObj = true ∧ (JSON.obj [("a", JSON.null)]).isObj = true)
    ∧ ¬(JSON.apply (JSON.obj []) (JSON.diff (JSON.obj []) (JSON.obj [("a", JSON.null)]))
        = JSON.obj [("a", JSON.null)]) := by
  refine ⟨⟨rfl, rfl⟩, ?_⟩
  rw [show JSON.diff (JSON.obj []) (JSON.obj [("a", JSON.null)])
      = JSON.obj (diffFields [] [("a", JSON.null)]) from rfl,
    diffFields_nil_l, apply_obj]
  show ¬(JSON.obj (applyFields [] [("a", JSON.null)]) = JSON.obj [("a", JSON.null)])
  rw [applyFields_nil_l]
  simp only [JSON.isNull, if_true]
  rw [applyFields_nil_r]
  simp

/-- Witness for the amended C2 at spec Scenario B: the diff of
previous a = 1, b = 2 against current a = 1, c = 3 applied back to the
previous object reproduces the current object exactly. -/
theorem apply_diff_roundtrip_witness :
    (sbPrev.isObj = true ∧ sbCurr.isObj = true ∧ JSON.wf sbPrev = true
      ∧ JSON.wf sbCurr = true ∧ JSON.noNull sbCurr = true)
    ∧ JSON.apply sbPrev (JSON.diff sbPrev sbCurr) = sbCurr := by
  have h₁ : sbPrev.isObj = true := rfl
  have h₂ : sbCurr.isObj = true := rfl
  have h₃ : JSON.wf sbPrev = true := by
    simp [sbPrev, wf_obj, sortedKeys, wfFields_cons, wfFields, JSON.wf, strLt, charsLt]
  have h₄ : JSON.wf sbCurr = true := by
    simp [sbCurr, wf_obj, sortedKeys, wfFields_cons, wfFields, JSON.wf, strLt, charsLt]
  have h₅ : JSON.noNull sbCurr = true := by
    simp [sbCurr, noNull_obj, noNullFields_cons, noNullFields, JSON.noNull, JSON.isNull]
  exact ⟨⟨h₁, h₂, h₃, h₄, h₅⟩, apply_diff_roundtrip sbPrev sbCurr h₁ h₂ h₃ h₄ h₅⟩

/-- Outcome record a successful reducer step returns for its event. -/
theorem reduceStep_ok_action (bk : Key) (e : patchEvent) (txn st₁ : Store)
    (act : ReduceAction) (h : reduceStep bk e txn = .ok (st₁, act)) :
    act = ⟨e.Patch.type, e.ModelName, e.ID⟩ := by
  by_cases hc : e.Patch.type = create
  · rw [reduceStep_create bk e txn hc] at h
    by_cases hex : hasKey txn (bk ++ [e.ModelName, e.ID]) = true
    · rw [if_pos hex] at h; simp at h
    · rw [if_neg hex] at h
      simp only [Except.ok.injEq, Prod.mk.injEq] at h
      rw [← h.2, hc]
      rfl
  · by_cases hs : e.Patch.type = save
    · rw [reduceStep_save bk e txn hs] at h
      cases hg : getKey txn (bk ++ [e.ModelName, e.ID]) with
      | none => rw [hg] at h; simp at h
      | some value =>
        rw [hg] at h
        simp only [Except.ok.injEq, Prod.mk.injEq] at h
        rw [← h.2, hs]
        rfl
    · by_cases hd : e.Patch.type = delete
      · rw [reduceStep_delete bk e txn hd] at h
        simp only [Except.ok.injEq, Prod.mk.injEq] at h
        rw [← h.2, hd]
        rfl
      · simp only [reduceStep, hc, hs, hd, if_false] at h
        simp at h

/-- Shape of a successful reducer loop: one outcome per event, in input
order, each carrying its event's operation kind, model and entity. -/
theorem reduceLoop_ok_shape (bk : Key) : ∀ (events : List patchEvent) (st stf : Store)
    (acts : List ReduceAction),
    reduceLoop bk events st = .ok (stf, acts) →
    acts.length = events.length
    ∧ ∀ i : Nat, acts[i]? = (events[i]?).map
        (fun e => (⟨e.Patch.type, e.ModelName, e.ID⟩ : ReduceAction))
  | [], st, stf, acts, h => by
    simp only [reduceLoop, Except.ok.injEq, Prod.mk.injEq] at h
    rw [← h.2]
    exact ⟨rfl, fun i => by simp⟩
  | e :: es, st, stf, acts, h => by
    simp only [reduceLoop] at h
    cases hstep : reduceStep bk e st with
    | error er => rw [hstep] at h; simp at h
    | ok p =>
      obtain ⟨st₁, act⟩ := p
      rw [hstep] at h
      dsimp only at h
      cases hrec : reduceLoop bk es st₁ with
      | error er => rw [hrec] at h; simp at h
      | ok q =>
        obtain ⟨st₂, acts₂⟩ := q
        rw [hrec] at h
        simp only [Except.ok.injEq, Prod.mk.injEq] at h
        have hshape := reduceLoop_ok_shape bk es st₁ st₂ acts₂ hrec
        rw [← h.2]
        refine ⟨by simp [hshape.1], ?_⟩
        intro i
        cases i with
        | zero => simp [reduceStep_ok_action bk e st st₁ act hstep]
        | succ j => simpa using hshape.2 j

/--
C7: a Reduce call in which every event applies without error commits
and returns exactly one outcome record per input event, in input order,
the i-th outcome carrying the i-th event's kind, model name and entity
id; no reordering and no deduplication.
-/
theorem reduce_success_outcomes (events : List patchEvent) (st : Store) (bk : Key)
    (acts : List ReduceAction) (h : (Reduce events st bk).outcomes = .ok acts) :
    acts.length = events.length
    ∧ ∀ i : Nat, acts[i]? = (events[i]?).map
        (fun e => (⟨e.Patch.type, e.ModelName, e.ID⟩ : ReduceAction)) := by
  cases hr : reduceLoop bk events st with
  | error er =>
    unfold Reduce at h
    rw [hr] at h
    simp at h
  | ok p =>
    obtain ⟨txn, acts₂⟩ := p
    unfold Reduce at h
    rw [hr] at h
    simp only [Except.ok.injEq] at h
    rw [← h]
    exact reduceLoop_ok_shape bk events st txn acts₂ hr

/-- Witness for C7: reducing a Create of user/A followed by a Delete of
user/A on the empty store succeeds with exactly the two matching
outcome records in input order. -/
theorem reduce_success_outcomes_witness :
    (Reduce [evCreateA, evDeleteA] [] []).outcomes
      = .ok [⟨create, "user", "A"⟩, ⟨delete, "user", "A"⟩]
    ∧ ([(⟨create, "user", "A"⟩ : ReduceAction), ⟨delete, "user", "A"⟩].length
        = [evCreateA, evDeleteA].length
      ∧ ∀ i : Nat, [(⟨create, "user", "A"⟩ : ReduceAction), ⟨delete, "user", "A"⟩][i]?
          = ([evCreateA, evDeleteA][i]?).map
            (fun e => (⟨e.Patch.type, e.ModelName, e.ID⟩ : ReduceAction))) :=
  ⟨rfl, reduce_success_outcomes [evCreateA, evDeleteA] [] [] _ rfl⟩

/--
C3: whenever Create succeeds, decoding the serialized envelope it
returned yields an event list equal field for field to the event list
it returned — every Timestamp, EntityID, ModelName, operation kind and
payload is preserved exactly.
-/
theorem create_envelope_decode_roundtrip (jm : Bool) (actions : List Action)
    (clock : Nat → Int) (evs : List patchEvent) (env : EnvelopeNode)
    (h : Create jm actions clock = .ok (evs, env)) :
    EventsFromBytes env = .ok evs := by
  unfold Create at h
  cases hl : createLoop jm clock actions 0 with
  | ok ps =>
    rw [hl] at h
    simp only [TResult.ok.injEq, Prod.mk.injEq] at h
    rw [← h.1, ← h.2]
    rfl
  | err e => rw [hl] at h; simp at h
  | panicked m => rw [hl] at h; simp at h

/-- Witness for C3: encoding one Delete action succeeds, and decoding
the produced envelope returns exactly the produced event list. -/
theorem create_envelope_decode_roundtrip_witness :
    Create false [actDeleteA] (fun i => (i : Int))
        = .ok ([⟨0, "A", "user", ⟨delete, "A", JSON.null⟩⟩],
               WrapObject ⟨[⟨0, "A", "user", ⟨delete, "A", JSON.null⟩⟩]⟩)
    ∧ EventsFromBytes (WrapObject ⟨[⟨0, "A", "user", ⟨delete, "A", JSON.null⟩⟩]⟩)
        = .ok [⟨0, "A", "user", ⟨delete, "A", JSON.null⟩⟩] :=
  ⟨rfl, create_envelope_decode_roundtrip false [actDeleteA] (fun i => (i : Int)) _ _ rfl⟩

/--
C4 (code evaluation): an action list containing an Action of
unrecognized kind makes Create panic with the source's message — the
process terminates instead of returning a distinct contract-violation
error to the caller as the spec prescribes.
-/
theorem create_unrecognized_action_panics :
    Create false [actUnknown] (fun _ => 0) = .panicked unknownActionMsg := rfl

/--
C9: if translating some action fails while every action before it
translates successfully, Create returns exactly that first error: no
event list and no envelope are produced, and nothing translated before
the failure is exposed.
-/
theorem create_aborts_on_first_error (jm : Bool) (clock : Nat → Int)
    (pre : List Action) (a : Action) (post : List Action) (e : CodecError)
    (hpre : ∀ x ∈ pre, ∃ op, translate jm x = .ok op)
    (ha : translate jm a = .err e) :
    Create jm (pre ++ a :: post) clock = .err e := by
  suffices hl : ∀ (l : List Action), (∀ x ∈ l, ∃ op, translate jm x = .ok op) →
      ∀ i, createLoop jm clock (l ++ a :: post) i = .err e by
    unfold Create
    rw [hl pre hpre 0]
  intro l
  induction l with
  | nil =>
    intro _ i
    simp only [List.nil_append, createLoop, ha]
  | cons x l ih =>
    intro hp i
    obtain ⟨op, hop⟩ := hp x (by simp)
    simp only [List.cons_append, createLoop, hop, List.append_eq]
    rw [ih (fun y hy => hp y (by simp [hy])) (i + 1)]

/-- Witness for C9: a batch of a valid Delete, then a Create of an
unserializable value, then a valid Create returns only the
serialization error of the second action. -/
theorem create_aborts_on_first_error_witness :
    Create false [actDeleteA, actBadB, actCreateC] (fun _ => 0)
      = .err (CodecError.serializationError 7) :=
  create_aborts_on_first_error false (fun _ => 0) [actDeleteA] actBadB [actCreateC]
    (CodecError.serializationError 7)
    (fun x hx => by rw [List.mem_singleton] at hx; subst hx; exact ⟨_, rfl⟩)
    rfl

/-- Big-endian byte lists have exactly the requested width. -/
theorem beBytes_length : ∀ n v : Nat, (beBytes n v).length = n
  | 0, _ => rfl
  | n + 1, v => by simp [beBytes, beBytes_length n]

/-- Big-endian byte lists denote the encoded value. -/
theorem beNat_beBytes : ∀ n v : Nat, v < 256 ^ n → beNat (beBytes n v) = v
  | 0, v, h => by
    simp only [beBytes, beNat]
    omega
  | n + 1, v, h => by
    simp only [beBytes, beNat, beBytes_length]
    rw [beNat_beBytes n (v % 256 ^ n) (Nat.mod_lt _ (Nat.pow_pos (by norm_num)))]
    have hd : v / 256 ^ n < 256 := by
      apply Nat.div_lt_of_lt_mul
      rw [Nat.pow_succ] at h
      exact h
    rw [Nat.mod_eq_of_lt hd]
    exact Nat.div_add_mod' v (256 ^ n)

/-- Big-endian byte lists of equal width compare lexicographically as
their values do. -/
theorem lexLe_beBytes : ∀ n v₁ v₂ : Nat, v₁ ≤ v₂ → v₂ < 256 ^ n →
    lexLe (beBytes n v₁) (beBytes n v₂) = true
  | 0, _, _, _, _ => rfl
  | n + 1, v₁, v₂, hle, hlt => by
    simp only [beBytes, lexLe]
    have h₂ : v₂ / 256 ^ n < 256 := by
      apply Nat.div_lt_of_lt_mul
      rw [Nat.pow_succ] at hlt
      exact hlt
    have h₁ : v₁ / 256 ^ n < 256 :=
      lt_of_le_of_lt (Nat.div_le_div_right hle) h₂
    rw [Nat.mod_eq_of_lt h₁, Nat.mod_eq_of_lt h₂]
    by_cases hdd : v₁ / 256 ^ n < v₂ / 256 ^ n
    · rw [if_pos hdd]
    · rw [if_neg hdd]
      have hdeq : v₁ / 256 ^ n = v₂ / 256 ^ n :=
        Nat.le_antisymm (Nat.div_le_div_right hle) (Nat.le_of_not_lt hdd)
      rw [if_neg (by omega)]
      apply lexLe_beBytes n _ _ ?_ (Nat.mod_lt _ (Nat.pow_pos (by norm_num)))
      have q₁ := Nat.div_add_mod v₁ (256 ^ n)
      have q₂ := Nat.div_add_mod v₂ (256 ^ n)
      rw [← hdeq] at q₂
      have hsum : 256 ^ n * (v₁ / 256 ^ n) + v₁ % 256 ^ n
          ≤ 256 ^ n * (v₁ / 256 ^ n) + v₂ % 256 ^ n := by
        rw [q₁, q₂]
        exact hle
      exact Nat.le_of_add_le_add_left hsum

/--
C10: Time() returns exactly 8 bytes that big-endian encode the
timestamp's 64-bit UnixNano image (the value is recoverable from the
bytes), and for two events with non-negative int64 timestamps,
byte-wise lexicographic comparison of the Time() values agrees with
chronological order.
-/
theorem patchEvent_time_bigendian_monotone (e₁ e₂ : patchEvent)
    (h₀ : 0 ≤ e₁.Timestamp) (h₁ : e₁.Timestamp ≤ e₂.Timestamp)
    (h₂ : e₂.Timestamp < 2 ^ 63) :
    e₁.Time.length = 8
    ∧ beNat e₁.Time = e₁.Timestamp.toNat
    ∧ lexLe e₁.Time e₂.Time = true := by
  have hp : ((2 : Int) ^ 63) < (2 : Int) ^ 64 := by norm_num
  have hlt₁ : e₁.Timestamp < 2 ^ 64 := lt_of_le_of_lt h₁ (lt_trans h₂ hp)
  have hlt₂ : e₂.Timestamp < 2 ^ 64 := lt_trans h₂ hp
  have hm₁ : e₁.Timestamp % 2 ^ 64 = e₁.Timestamp := Int.emod_eq_of_lt h₀ hlt₁
  have hm₂ : e₂.Timestamp % 2 ^ 64 = e₂.Timestamp :=
    Int.emod_eq_of_lt (le_trans h₀ h₁) hlt₂
  have hpow : (256 : Nat) ^ 8 = 2 ^ 64 := by norm_num
  have ht₁ : e₁.Timestamp.toNat < 256 ^ 8 := by
    rw [hpow]
    have : ((2 : Int) ^ 64) = ((2 ^ 64 : Nat) : Int) := by norm_num
    omega
  have ht₂ : e₂.Timestamp.toNat < 256 ^ 8 := by
    rw [hpow]
    have : ((2 : Int) ^ 64) = ((2 ^ 64 : Nat) : Int) := by norm_num
    omega
  refine ⟨beBytes_length 8 _, ?_, ?_⟩
  · unfold patchEvent.Time
    rw [hm₁, beNat_beBytes 8 _ ht₁]
  · unfold patchEvent.Time
    rw [hm₁, hm₂]
    exact lexLe_beBytes 8 _ _ (by omega) ht₂

/-- Witness for C10 at the concrete events of timestamps 0 and 1: the
Time() bytes have length 8, decode back to the timestamp, and compare
lexicographically in chronological order. -/
theorem patchEvent_time_bigendian_monotone_witness :
    (0 ≤ evCreateA.Timestamp ∧ evCreateA.Timestamp ≤ evSaveB.Timestamp
      ∧ evSaveB.Timestamp < 2 ^ 63)
    ∧ evCreateA.Time.length = 8
    ∧ beNat evCreateA.Time = evCreateA.Timestamp.toNat
    ∧ lexLe evCreateA.Time evSaveB.Time = true := by
  have h := patchEvent_time_bigendian_monotone evCreateA evSaveB
    (by decide) (by decide) (by decide)
  exact ⟨⟨by decide, by decide, by decide⟩, h.1, h.2.1, h.2.2⟩

end jsonpatcher
